import Mathlib

/-!
Verification of the tool-gating proxy core (claude-flow).

Shallow embedding of the gating subsystem:
* `src/gating/schema-optimizer.ts`  — `truncateDescription`, `optimizeSchema`, `optimizeTool`
* `src/gating/discovery-service.ts` — `DiscoveryService.discoverTools`, `DiscoveryService.provisionTools`
* `src/gating/filters/ResourceFilter.ts` — `ResourceFilter.apply`
* `src/gating/toolset-registry.ts`  — `ToolGateController` state machine
  (`enableToolset`, `disableToolset`, `sweepExpiredToolsets`, `enforceLRUCap`)
* `src/mcp/proxy/mcp-client-manager.ts` — `ProxyService.executeTool` / `validateInput`

JavaScript values are modelled by the mutual inductive `Json` below
(`undefined` stands for JavaScript's `undefined`; numbers are modelled as
integers, which covers every value the verified operations construct or
inspect).  JavaScript objects are association lists in key-insertion
order, which is the iteration order of both `Object.entries` and `Map`.
-/

mutual

inductive Json where
  | null  : Json
  | undefined : Json
  | bool  : Bool → Json
  | num   : Int → Json
  | str   : String → Json
  | arr   : JsonList → Json
  | obj   : JsonFields → Json
deriving DecidableEq

inductive JsonList where
  | nil  : JsonList
  | cons : Json → JsonList → JsonList
deriving DecidableEq

inductive JsonFields where
  | nil  : JsonFields
  | cons : String → Json → JsonFields → JsonFields
deriving DecidableEq

end

namespace JsonList

def length : JsonList → Nat
  | .nil => 0
  | .cons _ tl => tl.length + 1

def take : Nat → JsonList → JsonList
  | 0, _ => .nil
  | _, .nil => .nil
  | n + 1, .cons hd tl => .cons hd (take n tl)

end JsonList

namespace JsonFields

/-- The keys of an object, in insertion order (`Object.keys`). -/
def keys : JsonFields → List String
  | .nil => []
  | .cons k _ tl => k :: keys tl

/-- First binding of a key, if present (JS objects have unique keys). -/
def getField : JsonFields → String → Option Json
  | .nil, _ => none
  | .cons k v tl, k' => if k = k' then some v else getField tl k'

/-- `o[k] = v`: replace the first binding of `k` in place, else append
(the semantics of both property assignment and object spread override). -/
def setKey : JsonFields → String → Json → JsonFields
  | .nil, k, v => .cons k v .nil
  | .cons k₀ v₀ tl, k, v =>
    if k₀ = k then .cons k₀ v tl else .cons k₀ v₀ (setKey tl k v)

end JsonFields

/-! ## Schema optimizer (`src/gating/schema-optimizer.ts`) -/

/-- `MAX_DESCRIPTION_LENGTH` -/
def MAX_DESCRIPTION_LENGTH : Nat := 50

/-- The string branch of `truncateDescription`:
`description.length > 50 ? description.slice(0, 50) : description`. -/
def truncateString (s : String) : String :=
  if MAX_DESCRIPTION_LENGTH < s.length then String.mk (s.toList.take MAX_DESCRIPTION_LENGTH) else s

/-- `truncateDescription(description: string = '')` applied to the raw value of
`tool.description`.  A missing property or an explicit `undefined` triggers the
default parameter and yields `''`.  On non-string values JavaScript evaluates
`description.length > 50` anyway: arrays have a numeric `length` and a `slice`,
every other non-string value has `undefined > 50 = false` and is returned
unchanged. -/
def truncateDescriptionJs : Option Json → Json
  | none => .str ""
  | some .undefined => .str ""
  | some (.str s) => .str (truncateString s)
  | some (.arr l) =>
    if MAX_DESCRIPTION_LENGTH < l.length then .arr (JsonList.take MAX_DESCRIPTION_LENGTH l) else .arr l
  | some j => j

mutual

/-- `optimizeSchema`: map over arrays, rebuild objects dropping
`examples`/`default`, truncating string `description`s and recursing into every
other value; return primitives unchanged. -/
def optimizeSchema : Json → Json
  | .arr l => .arr (optimizeSchemaList l)
  | .obj kvs => .obj (optimizeSchemaFields kvs)
  | j => j

def optimizeSchemaList : JsonList → JsonList
  | .nil => .nil
  | .cons hd tl => .cons (optimizeSchema hd) (optimizeSchemaList tl)

def optimizeSchemaFields : JsonFields → JsonFields
  | .nil => .nil
  | .cons k (.str s) tl =>
    if k = "examples" ∨ k = "default" then optimizeSchemaFields tl
    else if k = "description" then .cons k (.str (truncateString s)) (optimizeSchemaFields tl)
    else .cons k (.str s) (optimizeSchemaFields tl)
  | .cons k v tl =>
    if k = "examples" ∨ k = "default" then optimizeSchemaFields tl
    else .cons k (optimizeSchema v) (optimizeSchemaFields tl)

end

/-- `optimizeTool`: `{...tool, description: truncateDescription(tool.description),
inputSchema: optimizeSchema(tool.inputSchema)}`.  A tool descriptor is an
object; the spread keeps every key in place and the two overrides update the
existing keys in place (or append them when absent). -/
def optimizeTool (tool : JsonFields) : JsonFields :=
  (tool.setKey "description" (truncateDescriptionJs (tool.getField "description"))).setKey
    "inputSchema"
    (optimizeSchema ((tool.getField "inputSchema").getD .undefined))

example :
    optimizeSchema (.obj (.cons "default" (.num 1) (.cons "x" (.num 2) .nil))) =
      .obj (.cons "x" (.num 2) .nil) := by decide

/-! ### Predicates over optimized schemas -/

mutual

/-- No object node anywhere in the value carries an `examples` or `default` key. -/
def noBanned : Json → Bool
  | .arr l => noBannedL l
  | .obj kvs => noBannedF kvs
  | _ => true

def noBannedL : JsonList → Bool
  | .nil => true
  | .cons hd tl => noBanned hd && noBannedL tl

def noBannedF : JsonFields → Bool
  | .nil => true
  | .cons k v tl => (k != "examples" && k != "default") && noBanned v && noBannedF tl

end

mutual

/-- Every string bound to a `description` key at any object node has at most
`MAX_DESCRIPTION_LENGTH` code points. -/
def descrOK : Json → Bool
  | .arr l => descrOKL l
  | .obj kvs => descrOKF kvs
  | _ => true

def descrOKL : JsonList → Bool
  | .nil => true
  | .cons hd tl => descrOK hd && descrOKL tl

def descrOKF : JsonFields → Bool
  | .nil => true
  | .cons k (.str s) tl =>
    (if k = "description" then decide (s.length ≤ MAX_DESCRIPTION_LENGTH) else true) && descrOKF tl
  | .cons _ v tl => descrOK v && descrOKF tl

end

theorem truncateString_length (s : String) :
    (truncateString s).length ≤ MAX_DESCRIPTION_LENGTH := by
  unfold truncateString
  split
  · simpa using List.length_take_le MAX_DESCRIPTION_LENGTH s.toList
  · omega

mutual

theorem noBanned_optimizeSchema : ∀ j : Json, noBanned (optimizeSchema j) = true
  | .null => rfl
  | .undefined => rfl
  | .bool _ => rfl
  | .num _ => rfl
  | .str _ => rfl
  | .arr l => by simp [optimizeSchema, noBanned, noBannedL_optimizeSchemaList l]
  | .obj kvs => by simp [optimizeSchema, noBanned, noBannedF_optimizeSchemaFields kvs]

theorem noBannedL_optimizeSchemaList : ∀ l : JsonList, noBannedL (optimizeSchemaList l) = true
  | .nil => rfl
  | .cons hd tl => by
    simp [optimizeSchemaList, noBannedL, noBanned_optimizeSchema hd,
      noBannedL_optimizeSchemaList tl]

theorem noBannedF_optimizeSchemaFields : ∀ kvs : JsonFields, noBannedF (optimizeSchemaFields kvs) = true
  | .nil => rfl
  | .cons k v tl => by
    have ih := noBannedF_optimizeSchemaFields tl
    cases v with
    | str s =>
      by_cases h1 : k = "examples" ∨ k = "default"
      · simp [optimizeSchemaFields, h1, ih]
      · by_cases h2 : k = "description" <;>
          simp_all [optimizeSchemaFields, noBannedF, noBanned, String.ext_iff]
    | null =>
      by_cases h1 : k = "examples" ∨ k = "default" <;>
        simp_all [optimizeSchemaFields, noBannedF, noBanned, optimizeSchema, not_or]
    | undefined =>
      by_cases h1 : k = "examples" ∨ k = "default" <;>
        simp_all [optimizeSchemaFields, noBannedF, noBanned, optimizeSchema, not_or]
    | bool b =>
      by_cases h1 : k = "examples" ∨ k = "default" <;>
        simp_all [optimizeSchemaFields, noBannedF, noBanned, optimizeSchema, not_or]
    | num n =>
      by_cases h1 : k = "examples" ∨ k = "default" <;>
        simp_all [optimizeSchemaFields, noBannedF, noBanned, optimizeSchema, not_or]
    | arr l =>
      by_cases h1 : k = "examples" ∨ k = "default" <;>
        simp_all [optimizeSchemaFields, noBannedF, noBanned, optimizeSchema, not_or,
          noBannedL_optimizeSchemaList l]
    | obj kvs2 =>
      by_cases h1 : k = "examples" ∨ k = "default" <;>
        simp_all [optimizeSchemaFields, noBannedF, noBanned, optimizeSchema, not_or,
          noBannedF_optimizeSchemaFields kvs2]

end

mutual

theorem descrOK_optimizeSchema : ∀ j : Json, descrOK (optimizeSchema j) = true
  | .null => rfl
  | .undefined => rfl
  | .bool _ => rfl
  | .num _ => rfl
  | .str _ => rfl
  | .arr l => by simp [optimizeSchema, descrOK, descrOKL_optimizeSchemaList l]
  | .obj kvs => by simp [optimizeSchema, descrOK, descrOKF_optimizeSchemaFields kvs]

theorem descrOKL_optimizeSchemaList : ∀ l : JsonList, descrOKL (optimizeSchemaList l) = true
  | .nil => rfl
  | .cons hd tl => by
    simp [optimizeSchemaList, descrOKL, descrOK_optimizeSchema hd,
      descrOKL_optimizeSchemaList tl]

theorem descrOKF_optimizeSchemaFields : ∀ kvs : JsonFields, descrOKF (optimizeSchemaFields kvs) = true
  | .nil => rfl
  | .cons k v tl => by
    have ih := descrOKF_optimizeSchemaFields tl
    by_cases h1 : k = "examples" ∨ k = "default"
    · cases v <;> simp [optimizeSchemaFields, h1, ih]
    · cases v with
      | str s =>
        by_cases h2 : k = "description"
        · subst h2
          simp [optimizeSchemaFields, h1, descrOKF, ih, truncateString_length s]
        · simp [optimizeSchemaFields, h1, h2, descrOKF, ih]
      | null => simp [optimizeSchemaFields, h1, descrOKF, ih, optimizeSchema, descrOK]
      | undefined => simp [optimizeSchemaFields, h1, descrOKF, ih, optimizeSchema, descrOK]
      | bool b => simp [optimizeSchemaFields, h1, descrOKF, ih, optimizeSchema, descrOK]
      | num n => simp [optimizeSchemaFields, h1, descrOKF, ih, optimizeSchema, descrOK]
      | arr l =>
        simp [optimizeSchemaFields, h1, descrOKF, ih, optimizeSchema, descrOK,
          descrOKL_optimizeSchemaList l]
      | obj kvs2 =>
        simp [optimizeSchemaFields, h1, descrOKF, ih, optimizeSchema, descrOK,
          descrOKF_optimizeSchemaFields kvs2]

end

theorem getField_setKey_self : ∀ (kvs : JsonFields) (k : String) (v : Json),
    (kvs.setKey k v).getField k = some v
  | .nil, k, v => by simp [JsonFields.setKey, JsonFields.getField]
  | .cons k₀ v₀ tl, k, v => by
    by_cases h : k₀ = k <;>
      simp [JsonFields.setKey, JsonFields.getField, h, getField_setKey_self tl k v]

theorem getField_setKey_other : ∀ (kvs : JsonFields) (k k' : String) (v : Json),
    k ≠ k' → (kvs.setKey k v).getField k' = kvs.getField k'
  | .nil, k, k', v, h => by simp [JsonFields.setKey, JsonFields.getField, h]
  | .cons k₀ v₀ tl, k, k', v, h => by
    by_cases h0 : k₀ = k
    · subst h0
      simp [JsonFields.setKey, JsonFields.getField, h]
    · simp [JsonFields.setKey, JsonFields.getField, h0,
        getField_setKey_other tl k k' v h]

theorem keys_optimizeSchemaFields : ∀ kvs : JsonFields,
    (optimizeSchemaFields kvs).keys =
      kvs.keys.filter (fun k => !(k == "examples" || k == "default"))
  | .nil => rfl
  | .cons k v tl => by
    have ih := keys_optimizeSchemaFields tl
    by_cases h1 : k = "examples" ∨ k = "default"
    · cases v <;> simp [optimizeSchemaFields, h1, JsonFields.keys, ih] <;>
        rcases h1 with h | h <;> simp [h]
    · rw [not_or] at h1
      cases v <;> by_cases h2 : k = "description" <;>
        simp [optimizeSchemaFields, JsonFields.keys, ih, h1.1, h1.2, h2, not_or]

theorem length_optimizeSchemaList : ∀ l : JsonList,
    (optimizeSchemaList l).length = l.length
  | .nil => rfl
  | .cons hd tl => by
    simp [optimizeSchemaList, JsonList.length, length_optimizeSchemaList tl]

/-- C6 (amended).  `optimizeTool` rebuilds the descriptor with
`description := truncateDescription(tool.description)` and
`inputSchema := optimizeSchema(tool.inputSchema)`.  In the optimized schema no
object node carries a `default` or `examples` key, every string-valued
`description` (root schema and nested nodes alike) has length at most 50, the
remaining keys are kept in order and array lengths are preserved, and the
tool-level description is truncated to at most 50 code points.  (Non-string
`description` values are not left unchanged: like every other value they are
recursed into, so nested `default`/`examples` keys inside them are removed —
see the counterexample.) -/
theorem c6_optimizeTool_contract :
    (∀ j : Json, noBanned (optimizeSchema j) = true ∧ descrOK (optimizeSchema j) = true) ∧
    (∀ kvs : JsonFields,
      (optimizeSchemaFields kvs).keys =
        kvs.keys.filter (fun k => !(k == "examples" || k == "default"))) ∧
    (∀ l : JsonList, (optimizeSchemaList l).length = l.length) ∧
    (∀ tool : JsonFields,
      (optimizeTool tool).getField "inputSchema" =
          some (optimizeSchema ((tool.getField "inputSchema").getD .undefined)) ∧
      (optimizeTool tool).getField "description" =
          some (truncateDescriptionJs (tool.getField "description"))) ∧
    (∀ s : String, (truncateString s).length ≤ MAX_DESCRIPTION_LENGTH) := by
  refine ⟨fun j => ⟨noBanned_optimizeSchema j, descrOK_optimizeSchema j⟩,
    keys_optimizeSchemaFields, length_optimizeSchemaList, fun tool => ⟨?_, ?_⟩,
    truncateString_length⟩
  · exact getField_setKey_self _ _ _
  · rw [optimizeTool, getField_setKey_other _ _ _ _ (by decide)]
    exact getField_setKey_self _ _ _

/-- C6 counterexample.  The claim says non-string `description` values are left
unchanged.  On a tool whose root schema has an object-valued `description`
`{default: 1}`, `optimizeTool` rewrites that description to `{}`: the nested
`default` key is stripped. -/
theorem c6_nonstring_description_rewritten :
    (optimizeTool
        (.cons "name" (.str "t")
          (.cons "inputSchema"
            (.obj (.cons "description" (.obj (.cons "default" (.num 1) .nil)) .nil))
            .nil))).getField "inputSchema" =
        some (.obj (.cons "description" (.obj .nil) .nil)) ∧
      Json.obj .nil ≠ Json.obj (.cons "default" (.num 1) .nil) := by
  constructor
  · rfl
  · decide

/-! ## JSON.stringify (used by `calculateTokenSize`) -/

/-- Lowercase hex digit. -/
def hexDigit (n : Nat) : Char :=
  if n < 10 then Char.ofNat (48 + n) else Char.ofNat (87 + n)

/-- How `JSON.stringify` escapes one character inside a string literal. -/
def escapeChar (c : Char) : String :=
  if c = '"' then "\\\""
  else if c = '\\' then "\\\\"
  else if c.toNat = 8 then "\\b"
  else if c = '\t' then "\\t"
  else if c = '\n' then "\\n"
  else if c.toNat = 12 then "\\f"
  else if c = '\r' then "\\r"
  else if c.toNat < 32 then "\\u00" ++ String.mk [hexDigit (c.toNat / 16), hexDigit (c.toNat % 16)]
  else String.singleton c

def jsonQuote (s : String) : String :=
  "\"" ++ String.join (s.toList.map escapeChar) ++ "\""

mutual

/-- `JSON.stringify` (an `undefined` member of an object is skipped, an `undefined`
array element serializes as `null`; function-valued members of real descriptors
are likewise skipped, i.e. absent from the modelled object). -/
def stringify : Json → String
  | .null => "null"
  | .undefined => "null"
  | .bool true => "true"
  | .bool false => "false"
  | .num n => toString n
  | .str s => jsonQuote s
  | .arr l => "[" ++ String.intercalate "," (stringifyList l) ++ "]"
  | .obj kvs => "\x7b" ++ String.intercalate "," (stringifyFields kvs) ++ "\x7d"

def stringifyList : JsonList → List String
  | .nil => []
  | .cons hd tl => stringify hd :: stringifyList tl

def stringifyFields : JsonFields → List String
  | .nil => []
  | .cons _ .undefined tl => stringifyFields tl
  | .cons k v tl => (jsonQuote k ++ ":" ++ stringify v) :: stringifyFields tl

end

/-! ## Discovery service (`src/gating/discovery-service.ts`) -/

/-- A JavaScript number as the discovery/provisioning API receives it: either a
finite value (JS `length/4` is exact in binary floating point, so rationals are
an exact model of every number these functions compute) or a non-finite one
(`NaN`, `±Infinity` — all rejected identically by `Number.isFinite`). -/
inductive JSNum where
  | finite (q : ℚ) : JSNum
  | nonfinite : JSNum
deriving DecidableEq

/-- `Math.max(1, Math.ceil(JSON.stringify(tool).length / 4))`:
for a natural `len`, `⌈len/4⌉ = (len+3)/4`. -/
def estTokens (tool : Json) : Nat :=
  max 1 (((stringify tool).length + 3) / 4)

/-- The `for (const tool of tools)` loop of `provisionTools`, threading
`currentTokens`.  A tool whose estimate alone exceeds `maxTokens` is skipped
(`continue`); a tool that fits the remaining budget is taken; otherwise the
loop stops (`break` — "No more tools can fit, stop early"). -/
def provisionGo : List Json → Nat → ℚ → List Json
  | [], _, _ => []
  | tool :: rest, currentTokens, maxTokens =>
    let toolTokens := estTokens tool
    if (toolTokens : ℚ) > maxTokens then provisionGo rest currentTokens maxTokens
    else if (currentTokens : ℚ) + (toolTokens : ℚ) ≤ maxTokens then
      tool :: provisionGo rest (currentTokens + toolTokens) maxTokens
    else []

/-- `DiscoveryService.provisionTools`. -/
def provisionTools (tools : List Json) (maxTokens : JSNum) : List Json :=
  match maxTokens with
  | .nonfinite => []
  | .finite q => if q ≤ 0 then [] else provisionGo tools 0 q

/-- A tool descriptor as `discoverTools` inspects it: `name`, `description`,
`categories`, `capabilities` (a missing list field is `[]`, a missing string
field is `""`; both are falsy and dropped by `filter(Boolean)` below alike). -/
structure DTool where
  name : String
  description : String
  categories : List String
  capabilities : List String
deriving DecidableEq

/-- JS `String.prototype.toLowerCase` (character-wise lowercasing). -/
def jsToLower (s : String) : String :=
  String.mk (s.toList.map Char.toLower)

/-- JS `String.prototype.trim`: strip leading and trailing whitespace. -/
def jsTrim (s : String) : String :=
  String.mk (((s.toList.dropWhile Char.isWhitespace).reverse.dropWhile
    Char.isWhitespace).reverse)

/-- `[name, description, ...categories, ...capabilities].filter(Boolean).map(toLowerCase)`. -/
def searchFields (t : DTool) : List String :=
  (([t.name, t.description] ++ t.categories ++ t.capabilities).filter (fun s => s ≠ "")).map
    jsToLower

/-- `hay.includes(needle)`. -/
def strIncludes (hay needle : String) : Bool :=
  hay.toList.tails.any (fun suffix => needle.toList.isPrefixOf suffix)

/-- `searchFields.some(field => field.includes(queryLower))`. -/
def matchesQuery (queryLower : String) (t : DTool) : Bool :=
  (searchFields t).any (fun field => strIncludes field queryLower)

/-- `Number.isFinite(limit) && limit > 0 ? Math.floor(limit) : 10`. -/
def safeLimit : JSNum → Nat
  | .finite q => if 0 < q then ⌊q⌋₊ else 10
  | .nonfinite => 10

/-- `DiscoveryService.discoverTools` over the repository's tool list
(`getAllTools` iteration order). -/
def discoverTools (repo : List DTool) (query : String) (limit : JSNum) : List DTool :=
  let queryLower := jsToLower (jsTrim query)
  let filteredTools := repo.filter (matchesQuery queryLower)
  filteredTools.take (safeLimit limit)

example : estTokens (Json.str "aaaaaaaaaaaaaaaaaaaaaa") = 6 := by decide
example : estTokens (Json.str "cccccccc") = 3 := by decide

/-! ### Provisioning theorems (C2, C3) -/

theorem provisionGo_sum_le : ∀ (tools : List Json) (cur : Nat) (q : ℚ),
    (cur : ℚ) ≤ q →
    (cur : ℚ) + (((provisionGo tools cur q).map estTokens).sum : ℚ) ≤ q := by
  intro tools
  induction tools with
  | nil => intro cur q h; simpa [provisionGo] using h
  | cons tool rest ih =>
    intro cur q h
    rw [provisionGo]
    by_cases h1 : (estTokens tool : ℚ) > q
    · simpa [h1] using ih cur q h
    · by_cases h2 : (cur : ℚ) + (estTokens tool : ℚ) ≤ q
      · have := ih (cur + estTokens tool) q (by push_cast; linarith)
        simp only [h1, h2, if_true, if_false, List.map_cons, List.sum_cons]
        push_cast
        push_cast at this
        linarith
      · simp only [h1, h2, if_false, List.map_nil, List.sum_nil]
        simpa using h

/-- C3.  For every tool list and every budget: when the budget is a positive
finite number, the sum of the estimated token counts
`max(1, ⌈len(JSON(tool))/4⌉)` over the provisioned tools never exceeds it; a
non-positive or non-finite budget yields the empty list. -/
theorem c3_provision_budget :
    (∀ (tools : List Json) (q : ℚ), 0 < q →
      ((((provisionTools tools (.finite q)).map estTokens).sum : ℚ)) ≤ q) ∧
    (∀ (tools : List Json) (q : ℚ), q ≤ 0 → provisionTools tools (.finite q) = []) ∧
    (∀ tools : List Json, provisionTools tools .nonfinite = []) := by
  refine ⟨fun tools q hq => ?_, fun tools q hq => ?_, fun tools => rfl⟩
  · have h := provisionGo_sum_le tools 0 q (by exact_mod_cast le_of_lt hq)
    simp only [provisionTools, if_neg (not_le.mpr hq)]
    simpa using h
  · simp [provisionTools, hq]

/-- C3 witness: the budget bound and both empty-result clauses at concrete
inputs. -/
theorem c3_provision_budget_witness :
    ((((provisionTools [Json.null] (.finite 3)).map estTokens).sum : ℚ)) ≤ 3 ∧
    provisionTools [Json.null] (.finite (-1)) = [] ∧
    provisionTools [Json.null] .nonfinite = [] :=
  ⟨c3_provision_budget.1 [Json.null] 3 (by norm_num),
   c3_provision_budget.2.1 [Json.null] (-1) (by norm_num),
   c3_provision_budget.2.2 [Json.null]⟩

theorem provisionGo_skip_too_big : ∀ (pre : List Json) (t : Json) (post : List Json)
    (cur : Nat) (q : ℚ), (estTokens t : ℚ) > q →
    provisionGo (pre ++ t :: post) cur q = provisionGo (pre ++ post) cur q := by
  intro pre
  induction pre with
  | nil =>
    intro t post cur q h
    simp [provisionGo, h]
  | cons p pre' ih =>
    intro t post cur q h
    simp only [List.cons_append, provisionGo]
    by_cases h1 : (estTokens p : ℚ) > q
    · simp [h1, ih t post cur q h]
    · by_cases h2 : (cur : ℚ) + (estTokens p : ℚ) ≤ q
      · simp [h1, h2, ih t post (cur + estTokens p) q h]
      · simp [h1, h2]

/-- C2 (amended).  The `continue` in `provisionTools` applies only to a tool
whose estimate exceeds the *whole* budget `maxTokens`: such a tool is skipped
and iteration continues, so a small tool can still fill the leftover budget
after it.  But a tool whose estimate fits `maxTokens` while exceeding the
*remaining* budget triggers the `break`: the loop stops and no later tool is
included, however small. -/
theorem c2_provision_skip_vs_break :
    (∀ (pre : List Json) (t : Json) (post : List Json) (q : ℚ),
      (estTokens t : ℚ) > q →
      provisionTools (pre ++ t :: post) (.finite q) = provisionTools (pre ++ post) (.finite q)) ∧
    (∀ (t : Json) (rest : List Json) (cur : Nat) (q : ℚ),
      (estTokens t : ℚ) ≤ q → (cur : ℚ) + (estTokens t : ℚ) > q →
      provisionGo (t :: rest) cur q = []) := by
  constructor
  · intro pre t post q h
    by_cases hq : q ≤ 0
    · simp [provisionTools, hq]
    · simp [provisionTools, hq, provisionGo_skip_too_big pre t post 0 q h]
  · intro t rest cur q h1 h2
    rw [provisionGo]
    simp only [not_lt.mpr h1, gt_iff_lt, if_false]
    simp [not_le.mpr h2, not_lt.mpr h1]

/-- C2 witness: skipping a tool too big for the whole budget at a concrete
input, and the break at a concrete input. -/
theorem c2_provision_skip_vs_break_witness :
    provisionTools [Json.str "aaaaaaaaaaaaaaaaaaaaaa", Json.null]
        (.finite 2) = provisionTools [Json.null] (.finite 2) ∧
    provisionGo [Json.str "aaaaaaaaaaaaaaaaaaaaaa", Json.null] 5 (10 : ℚ) = [] := by
  have e1 : estTokens (Json.str "aaaaaaaaaaaaaaaaaaaaaa") = 6 := by decide
  exact ⟨c2_provision_skip_vs_break.1 [] (Json.str "aaaaaaaaaaaaaaaaaaaaaa") [Json.null] 2
      (by rw [e1]; norm_num),
    c2_provision_skip_vs_break.2 (Json.str "aaaaaaaaaaaaaaaaaaaaaa") [Json.null] 5 10
      (by rw [e1]; norm_num) (by rw [e1]; norm_num)⟩

/-- C2 counterexample.  With budget 10 and estimates 6, 6, 3: the first tool is
taken (remaining 4), the second fits the whole budget but not the remaining 4,
and the loop breaks — the third tool, whose estimate 3 fits the remaining
budget, is *not* included, contradicting the claim. -/
theorem c2_break_drops_fitting_tool :
    provisionTools
        [Json.str "aaaaaaaaaaaaaaaaaaaaaa", Json.str "bbbbbbbbbbbbbbbbbbbbbb",
          Json.str "cccccccc"] (.finite 10) =
      [Json.str "aaaaaaaaaaaaaaaaaaaaaa"] ∧
    estTokens (Json.str "aaaaaaaaaaaaaaaaaaaaaa") = 6 ∧
    estTokens (Json.str "cccccccc") = 3 := by
  have e1 : estTokens (Json.str "aaaaaaaaaaaaaaaaaaaaaa") = 6 := by decide
  have e2 : estTokens (Json.str "bbbbbbbbbbbbbbbbbbbbbb") = 6 := by decide
  have e3 : estTokens (Json.str "cccccccc") = 3 := by decide
  refine ⟨?_, e1, e3⟩
  norm_num [provisionTools, provisionGo, e1, e2, e3]

/-! ### Discovery theorems (C4, C5) -/

theorem strIncludes_empty_needle (hay : String) : strIncludes hay "" = true := by
  unfold strIncludes
  cases h : hay.toList with
  | nil => simp [List.isPrefixOf]
  | cons c cs => simp [List.isPrefixOf]

theorem matchesQuery_empty (t : DTool) :
    matchesQuery "" t = !(searchFields t).isEmpty := by
  unfold matchesQuery
  cases h : searchFields t with
  | nil => simp
  | cons f fs => simp [strIncludes_empty_needle]

/-- C4 (amended).  An empty or whitespace-only query trims and lowercases to
`""`, which `includes` reports as a substring of every field: `discoverTools`
returns the first `safeLimit` tools that have at least one non-empty searchable
field — not the empty list.  (The result is empty only when no tool has a
non-empty `name`, `description`, category or capability.) -/
theorem c4_empty_query_matches_everything (repo : List DTool) (query : String)
    (limit : JSNum) (h : jsTrim query = "") :
    discoverTools repo query limit =
      (repo.filter (fun t => !(searchFields t).isEmpty)).take (safeLimit limit) := by
  have htl : jsToLower "" = "" := rfl
  simp only [discoverTools, h, htl]
  congr 1
  apply List.filter_congr
  intro t _
  exact matchesQuery_empty t

/-- C4 witness: a whitespace-only query over a one-tool repository. -/
theorem c4_empty_query_matches_everything_witness :
    discoverTools [⟨"a", "", [], []⟩] " " (.finite 5) =
      (([⟨"a", "", [], []⟩] : List DTool).filter
        (fun t => !(searchFields t).isEmpty)).take (safeLimit (.finite 5)) :=
  c4_empty_query_matches_everything [⟨"a", "", [], []⟩] " " (.finite 5) (by decide)

/-- C4 counterexample.  With one tool named `"a"` in the repository, the empty
query returns that tool, not the empty list the claim requires. -/
theorem c4_empty_query_not_empty_result :
    discoverTools [⟨"a", "", [], []⟩] "" (.finite 5) = [⟨"a", "", [], []⟩] ∧
      ([(⟨"a", "", [], []⟩ : DTool)] : List DTool) ≠ [] := by
  constructor
  · have h5 : safeLimit (.finite 5) = 5 := by norm_num [safeLimit]
    unfold discoverTools
    rw [h5]
    decide
  · simp

/-- C5 (amended).  `discoverTools` computes no scores and never sorts: it
returns a sublist of the repository in original iteration order, every returned
tool merely has the lowercased trimmed query as a substring of its lowercased
name, description, a category *or a capability*, and the result is the filtered
list truncated to `safeLimit`.  A `limit ≤ 0` (like a non-finite one) does not
empty the result — it falls back to the default limit 10. -/
theorem c5_discover_filter_not_score (repo : List DTool) (query : String) (limit : JSNum) :
    (discoverTools repo query limit).Sublist repo ∧
    (∀ t ∈ discoverTools repo query limit,
        matchesQuery (jsToLower (jsTrim query)) t = true) ∧
    (discoverTools repo query limit).length ≤ safeLimit limit ∧
    (∀ q : ℚ, q ≤ 0 → safeLimit (.finite q) = 10) := by
  refine ⟨?_, ?_, ?_, fun q hq => ?_⟩
  · exact (List.take_sublist _ _).trans (List.filter_sublist _)
  · intro t ht
    exact List.of_mem_filter (List.mem_of_mem_take ht)
  · simpa [discoverTools] using List.length_take_le _ _
  · simp [safeLimit, not_lt.mpr hq]

/-- C5 witness: the no-scoring contract at a concrete repository and query,
with the default limit taken at `limit = 0`. -/
theorem c5_discover_filter_not_score_witness :
    (discoverTools [⟨"a", "", [], []⟩] "a" (.finite 1)).Sublist [⟨"a", "", [], []⟩] ∧
    (∀ t ∈ discoverTools [⟨"a", "", [], []⟩] "a" (.finite 1),
        matchesQuery (jsToLower (jsTrim "a")) t = true) ∧
    (discoverTools [⟨"a", "", [], []⟩] "a" (.finite 1)).length ≤ safeLimit (.finite 1) ∧
    safeLimit (.finite 0) = 10 :=
  ⟨(c5_discover_filter_not_score [⟨"a", "", [], []⟩] "a" (.finite 1)).1,
   (c5_discover_filter_not_score [⟨"a", "", [], []⟩] "a" (.finite 1)).2.1,
   (c5_discover_filter_not_score [⟨"a", "", [], []⟩] "a" (.finite 1)).2.2.1,
   (c5_discover_filter_not_score [⟨"a", "", [], []⟩] "a" (.finite 1)).2.2.2 0 le_rfl⟩

/-- C5 counterexample.  The claim requires `limit ≤ 0` to yield the empty
result; the code instead falls back to the default limit 10 and returns the
matching tool. -/
theorem c5_limit_zero_not_empty :
    discoverTools [⟨"a", "", [], []⟩] "a" (.finite 0) = [⟨"a", "", [], []⟩] ∧
      ([(⟨"a", "", [], []⟩ : DTool)] : List DTool) ≠ [] := by
  constructor
  · have h0 : safeLimit (.finite 0) = 10 := by norm_num [safeLimit]
    unfold discoverTools
    rw [h0]
    decide
  · simp

/-! ## Resource filter (`src/gating/filters/ResourceFilter.ts`) -/

/-- `Array.prototype.slice(0, end)` for an integer `end`: a negative `end`
counts from the end of the array (`max(length + end, 0)`). -/
def jsSliceTo (l : List (String × Json)) (e : Int) : List (String × Json) :=
  if 0 ≤ e then l.take e.toNat else l.take ((l.length : Int) + e).toNat

/-- `ResourceFilter.apply`: `const max = this.config.maxTools;
if (!max || entries.length <= max) return tools;
return Object.fromEntries(entries.slice(0, max));`.
`maxTools` is `none` when the config omits it (`undefined`, falsy like `0`). -/
def resourceFilterApply (maxTools : Option Int) (tools : List (String × Json)) :
    List (String × Json) :=
  match maxTools with
  | none => tools
  | some m =>
    if m = 0 then tools
    else if (tools.length : Int) ≤ m then tools
    else jsSliceTo tools m

/-- C8 (amended).  The Resource filter treats both an absent `maxTools` and
`maxTools = 0` as "no limit" (both are falsy), returning the input unchanged —
`0` does *not* drop everything.  A positive `maxTools` keeps the first
`maxTools` entries in iteration order; a negative `maxTools` is passed to
`slice`, which counts from the end and keeps the first `length + maxTools`
entries. -/
theorem c8_resource_filter_truncation :
    (∀ tools, resourceFilterApply none tools = tools) ∧
    (∀ tools, resourceFilterApply (some 0) tools = tools) ∧
    (∀ tools (m : Int), 0 < m →
      resourceFilterApply (some m) tools = tools.take m.toNat) ∧
    (∀ tools (m : Int), m < 0 →
      resourceFilterApply (some m) tools = tools.take ((tools.length : Int) + m).toNat) := by
  refine ⟨fun tools => rfl, fun tools => rfl, fun tools m hm => ?_, fun tools m hm => ?_⟩
  · by_cases hle : (tools.length : Int) ≤ m
    · have : tools.length ≤ m.toNat := by omega
      simp [resourceFilterApply, hle, List.take_of_length_le this, hm.ne']
    · simp [resourceFilterApply, hle, jsSliceTo, hm.le, hm.ne']
  · have hne : m ≠ 0 := hm.ne
    have hle : ¬ (tools.length : Int) ≤ m := by
      have : (0 : Int) ≤ tools.length := by positivity
      omega
    have hneg : ¬ (0 : Int) ≤ m := not_le.mpr hm
    simp [resourceFilterApply, hne, hle, jsSliceTo, hneg]

/-- C8 witness: `maxTools = 0` and absent `maxTools` leave a one-entry map
unchanged; `maxTools = 1` and `maxTools = -1` slice a two-entry map. -/
theorem c8_resource_filter_truncation_witness :
    resourceFilterApply none [("a", Json.null)] = [("a", Json.null)] ∧
    resourceFilterApply (some 0) [("a", Json.null)] = [("a", Json.null)] ∧
    resourceFilterApply (some 1) [("a", Json.null), ("b", Json.null)] =
      [("a", Json.null), ("b", Json.null)].take ((1 : Int)).toNat ∧
    resourceFilterApply (some (-1)) [("a", Json.null), ("b", Json.null)] =
      [("a", Json.null), ("b", Json.null)].take
        ((([("a", Json.null), ("b", Json.null)] : List (String × Json)).length : Int) + -1).toNat :=
  ⟨c8_resource_filter_truncation.1 [("a", Json.null)],
   c8_resource_filter_truncation.2.1 [("a", Json.null)],
   c8_resource_filter_truncation.2.2.1 [("a", Json.null), ("b", Json.null)] 1 (by norm_num),
   c8_resource_filter_truncation.2.2.2 [("a", Json.null), ("b", Json.null)] (-1) (by norm_num)⟩

/-- C8 counterexample.  The claim requires `maxTools ≤ 0` to return the empty
map; with `maxTools = 0` the filter returns the one-entry input unchanged. -/
theorem c8_maxTools_zero_keeps_all :
    resourceFilterApply (some 0) [("a", Json.null)] = [("a", Json.null)] ∧
      ([("a", Json.null)] : List (String × Json)) ≠ [] := by
  exact ⟨rfl, by simp⟩

/-! ## Proxy service input validation (`src/mcp/proxy/mcp-client-manager.ts`) -/

/-- A thrown JavaScript error: a `TypeError` from accessing a property of
`undefined`/`null`, or an `MCPError` with its message. -/
inductive JsError where
  | typeError : JsError
  | mcp (msg : String) : JsError
deriving DecidableEq

/-- A canonical array-index property name (`"0"`, `"17"`, but not `"00"`). -/
def parseIndex (k : String) : Option Nat :=
  if k.toList ≠ [] ∧ k.toList.all Char.isDigit then
    let n := k.toList.foldl (fun a c => a * 10 + (c.toNat - 48)) 0
    if toString n = k then some n else none
  else none

def jsonListGet : JsonList → Nat → Json
  | .nil, _ => .undefined
  | .cons hd _, 0 => hd
  | .cons _ tl, n + 1 => jsonListGet tl n

def jsonFieldsToList : JsonFields → List (String × Json)
  | .nil => []
  | .cons k v tl => (k, v) :: jsonFieldsToList tl

def jsonListToList : JsonList → List Json
  | .nil => []
  | .cons hd tl => hd :: jsonListToList tl

/-- Property read `o[k]` on a value that is not `null`/`undefined`
(a missing property reads as `undefined`). -/
def jsGet : Json → String → Json
  | .obj kvs, k => (kvs.getField k).getD .undefined
  | .arr l, k =>
    if k = "length" then .num l.length
    else match parseIndex k with
      | some n => jsonListGet l n
      | none => .undefined
  | .str s, k =>
    if k = "length" then .num s.length
    else match parseIndex k with
      | some n => ((s.toList[n]?).map (fun c => Json.str (String.singleton c))).getD .undefined
      | none => .undefined
  | _, _ => .undefined

/-- The `in` operator `k in o` for the object-like values validation applies it
to (prototype-chain names such as `toString` are not modelled). -/
def jsHasProp (o : Json) (k : String) : Bool :=
  match o with
  | .obj kvs => (kvs.getField k).isSome
  | .arr l =>
    k = "length" ||
      (match parseIndex k with
       | some n => decide (n < l.length)
       | none => false)
  | _ => false

/-- `Object.keys` (own enumerable property names, insertion order). -/
def jsKeys : Json → List String
  | .obj kvs => kvs.keys
  | .arr l => (List.range l.length).map toString
  | .str s => (List.range s.length).map toString
  | _ => []

/-- `Object.entries`. -/
def jsEntries : Json → List (String × Json)
  | .obj kvs => jsonFieldsToList kvs
  | .arr l => ((List.range l.length).map toString).zip (jsonListToList l)
  | .str s => ((List.range s.length).map toString).zip
      (s.toList.map (fun c => Json.str (String.singleton c)))
  | _ => []

/-- JavaScript truthiness. -/
def jsTruthy : Json → Bool
  | .null => false
  | .undefined => false
  | .bool b => b
  | .num n => n != 0
  | .str s => s != ""
  | .arr _ => true
  | .obj _ => true

mutual

/-- JavaScript `String(v)` coercion, as used for property keys and template
literals (`Symbol.toPrimitive`/`toString` overrides are not modelled). -/
def jsToPropKey : Json → String
  | .null => "null"
  | .undefined => "undefined"
  | .bool true => "true"
  | .bool false => "false"
  | .num n => toString n
  | .str s => s
  | .arr l => String.intercalate "," (jsToPropKeyList l)
  | .obj _ => "[object Object]"

def jsToPropKeyList : JsonList → List String
  | .nil => []
  | .cons .null tl => "" :: jsToPropKeyList tl
  | .cons .undefined tl => "" :: jsToPropKeyList tl
  | .cons hd tl => jsToPropKey hd :: jsToPropKeyList tl

end

/-- `ProxyService.checkType`: the `switch` over the declared primitive type
(unknown type strings and non-string types hit `default: return true`). -/
def checkType (value : Json) (ty : Json) : Bool :=
  if ty = .str "string" then (match value with | .str _ => true | _ => false)
  else if ty = .str "number" then (match value with | .num _ => true | _ => false)
  else if ty = .str "boolean" then (match value with | .bool _ => true | _ => false)
  else if ty = .str "object" then (match value with | .obj _ => true | _ => false)
  else if ty = .str "array" then (match value with | .arr _ => true | _ => false)
  else if ty = .str "null" then (match value with | .null => true | _ => false)
  else true

/-- `typeof input === 'object' && input !== null`: arrays pass this test. -/
def jsIsObjectLike : Json → Bool
  | .obj _ => true
  | .arr _ => true
  | _ => false

/-- The strict unknown-property loop: throw on the first input property not in
`allowedProperties`. -/
def checkUnknown (allowed : List String) : List String → Except JsError Unit
  | [] => .ok ()
  | k :: rest =>
    if allowed.contains k then checkUnknown allowed rest
    else
      .error (.mcp ("Unknown property: " ++ k ++ ". Allowed properties are: " ++
        (if String.intercalate ", " allowed = "" then "none" else String.intercalate ", " allowed)))

/-- The required-property loop: `for (const prop of schema.required)`. -/
def checkRequired (input : Json) : JsonList → Except JsError Unit
  | .nil => .ok ()
  | .cons r rest =>
    if jsHasProp input (jsToPropKey r) then checkRequired input rest
    else .error (.mcp ("Missing required property: " ++ jsToPropKey r))

/-- The property-type loop over `Object.entries(schema.properties)`; reading
`.type` of a `null`/`undefined` property schema throws a `TypeError`. -/
def checkTypes (input : Json) : List (String × Json) → Except JsError Unit
  | [] => .ok ()
  | (p, ps) :: rest =>
    if jsHasProp input p then
      match ps with
      | .null => .error .typeError
      | .undefined => .error .typeError
      | _ =>
        let expectedType := jsGet ps "type"
        if jsTruthy expectedType && !(checkType (jsGet input p) expectedType) then
          .error (.mcp ("Invalid type for property " ++ p ++ ": expected " ++
            jsToPropKey expectedType))
        else checkTypes input rest
    else checkTypes input rest

/-- `ProxyService.validateInput`.  Validation runs only under
`schema.type === 'object' && schema.properties` (reading `schema.type` of a
`null`/`undefined` schema throws). -/
def validateInput (schema input : Json) : Except JsError Unit :=
  match schema with
  | .null => .error .typeError
  | .undefined => .error .typeError
  | _ =>
    if jsGet schema "type" == Json.str "object" && jsTruthy (jsGet schema "properties") then
      if !(jsIsObjectLike input) then .error (.mcp "Input must be an object")
      else
        (if jsGet schema "additionalProperties" != Json.bool true then
          checkUnknown (jsKeys (jsGet schema "properties")) (jsKeys input)
         else .ok ()) >>= fun _ =>
        (match jsGet schema "required" with
         | .arr req => checkRequired input req
         | _ => .ok ()) >>= fun _ =>
        checkTypes input (jsEntries (jsGet schema "properties"))
    else .ok ()

/-- The call `clientManager.executeTool(serverName, toolName, input)` that a
successful validation dispatches. -/
structure Dispatch where
  server : String
  tool : String
  input : Json
deriving DecidableEq

def lookupTool : List (String × Json) → String → Option Json
  | [], _ => none
  | (n, t) :: rest, name => if n = name then some t else lookupTool rest name

/-- `ProxyService.executeTool`: repository lookup, `validateInput`, the
`hasServerName` type guard, then dispatch. -/
def proxyExecuteTool (repo : List (String × Json)) (toolName : String) (input : Json) :
    Except JsError Dispatch :=
  match lookupTool repo toolName with
  | none => .error (.mcp ("Tool not found: " ++ toolName))
  | some tool =>
    match validateInput (jsGet tool "inputSchema") input with
    | .error e => .error e
    | .ok _ =>
      match jsGet tool "serverName" with
      | .str s =>
        if 0 < s.length then .ok ⟨s, toolName, input⟩
        else .error (.mcp ("Tool " ++ toolName ++ " not associated with a backend server"))
      | _ => .error (.mcp ("Tool " ++ toolName ++ " not associated with a backend server"))

theorem checkUnknown_finds_error (allowed : List String) :
    ∀ (ks : List String) (k : String),
      ks.find? (fun k0 => !allowed.contains k0) = some k →
      checkUnknown allowed ks =
        .error (.mcp ("Unknown property: " ++ k ++ ". Allowed properties are: " ++
          (if String.intercalate ", " allowed = "" then "none"
           else String.intercalate ", " allowed))) := by
  intro ks
  induction ks with
  | nil => intro k h; simp at h
  | cons k0 rest ih =>
    intro k h
    rw [List.find?_cons] at h
    by_cases hc : allowed.contains k0
    · have hm : k0 ∈ allowed := by simpa using hc
      simp only [hc, Bool.not_true] at h
      simp [checkUnknown, hm, ih k h]
    · have hm : k0 ∉ allowed := by simpa using hc
      simp only [Bool.not_eq_true] at hc
      simp only [hc, Bool.not_false, Option.some.injEq] at h
      subst h
      simp [checkUnknown, hm]

/-- C9 (amended).  When — and only when — the tool's `inputSchema` has
`type: "object"` *and* a `properties` object, `executeTool`'s validation
rejects any input that is `null` or not of JavaScript type `"object"` with
`Input must be an object`; arrays, having `typeof === 'object'`, pass that
check (a non-empty array is then caught only by the unknown-property rule on
its index keys).  Unless `additionalProperties` is explicitly `true`, the first
input property not listed in `schema.properties` is rejected with an
`Unknown property` error. -/
theorem c9_validateInput_object_gate (schema input : Json) (pkvs : JsonFields)
    (h1 : jsGet schema "type" = .str "object")
    (h2 : jsGet schema "properties" = .obj pkvs) :
    (jsIsObjectLike input = false →
      validateInput schema input = .error (.mcp "Input must be an object")) ∧
    (∀ k : String,
      jsGet schema "additionalProperties" ≠ Json.bool true →
      jsIsObjectLike input = true →
      (jsKeys input).find? (fun k0 => !(pkvs.keys).contains k0) = some k →
      validateInput schema input =
        .error (.mcp ("Unknown property: " ++ k ++ ". Allowed properties are: " ++
          (if String.intercalate ", " pkvs.keys = "" then "none"
           else String.intercalate ", " pkvs.keys)))) := by
  have hpt : parseIndex "type" = none := by decide
  rcases schema with _ | _ | b | n | s | l | kvs
  · simp [jsGet] at h1
  · simp [jsGet] at h1
  · simp [jsGet] at h1
  · simp [jsGet] at h1
  · simp [jsGet, hpt] at h1
  · simp [jsGet, hpt] at h1
  constructor
  · intro hobj
    simp [validateInput, h1, h2, jsTruthy, hobj]
  · intro k hap hobj hfind
    have hcu := checkUnknown_finds_error pkvs.keys (jsKeys input) k hfind
    have hk : jsKeys (Json.obj pkvs) = pkvs.keys := rfl
    simp [validateInput, h1, h2, jsTruthy, hobj, bne_iff_ne, hap, hk, hcu,
      Bind.bind, Except.bind]

/-- The schema `{type:"object", properties:{a:{type:"string"}}}` of scenario
S8. -/
def c9schema : Json :=
  Json.obj (.cons "type" (.str "object")
    (.cons "properties"
      (.obj (.cons "a" (.obj (.cons "type" (.str "string") .nil)) .nil)) .nil))

/-- The `properties` object of `c9schema`. -/
def c9props : JsonFields :=
  .cons "a" (.obj (.cons "type" (.str "string") .nil)) .nil

instance exceptJsDecEq : DecidableEq (Except JsError Dispatch)
  | .ok x, .ok y =>
    if h : x = y then isTrue (by rw [h]) else isFalse (by intro hh; cases hh; exact h rfl)
  | .ok _, .error _ => isFalse (by intro h; exact Except.noConfusion h)
  | .error _, .ok _ => isFalse (by intro h; exact Except.noConfusion h)
  | .error e, .error f =>
    if h : e = f then isTrue (by rw [h]) else isFalse (by intro hh; cases hh; exact h rfl)

/-- C9 witness: with schema `{type:"object", properties:{a:{type:"string"}}}`,
the number `5` is rejected as a non-object and `{a:"x", b:1}` is rejected for
its unknown property `b`. -/
theorem c9_validateInput_object_gate_witness :
    validateInput c9schema (Json.num 5) = .error (.mcp "Input must be an object") ∧
    validateInput c9schema (Json.obj (.cons "a" (.str "x") (.cons "b" (.num 1) .nil))) =
      .error (.mcp ("Unknown property: " ++ "b" ++ ". Allowed properties are: " ++
        (if String.intercalate ", " c9props.keys = "" then "none"
         else String.intercalate ", " c9props.keys))) :=
  ⟨(c9_validateInput_object_gate c9schema (Json.num 5) c9props (by decide) (by decide)).1 rfl,
   (c9_validateInput_object_gate c9schema
      (Json.obj (.cons "a" (.str "x") (.cons "b" (.num 1) .nil))) c9props
      (by decide) (by decide)).2 "b" (by decide) rfl (by decide)⟩

/-- C9 counterexample.  The claim says every array input is rejected before
dispatch for a `type:"object"` schema; the object-shape check only tests
`typeof input === 'object' && input !== null`, which an array passes, so the
empty array sails through every check and is dispatched to the backend. -/
theorem c9_empty_array_dispatched :
    proxyExecuteTool
        [("t", Json.obj (.cons "inputSchema"
          (Json.obj (.cons "type" (.str "object")
            (.cons "properties"
              (.obj (.cons "a" (.obj (.cons "type" (.str "string") .nil)) .nil)) .nil)))
          (.cons "serverName" (.str "srv") .nil)))]
        "t" (Json.arr .nil) =
      .ok ⟨"srv", "t", Json.arr .nil⟩ := by
  decide

theorem stringLength_pos (s : String) (h : s ≠ "") : 0 < s.length := by
  rcases s with ⟨data⟩
  cases data with
  | nil => exact absurd rfl h
  | cons c cs => simp [String.length]

/-- C10.  When the tool's `inputSchema` (an actual value, not
`null`/`undefined`) has no `properties` key — including `{type:"object"}` with
no properties — the `schema.type === 'object' && schema.properties` guard is
false, `validateInput` performs no check at all, and `executeTool` dispatches
any input, of any type, unchanged to the backend. -/
theorem c10_no_properties_no_validation (repo : List (String × Json))
    (toolName : String) (tool schema input : Json) (sv : String)
    (hlk : lookupTool repo toolName = some tool)
    (his : jsGet tool "inputSchema" = schema)
    (hn : schema ≠ .null) (hu : schema ≠ .undefined)
    (hp : jsGet schema "properties" = .undefined)
    (hsv : jsGet tool "serverName" = .str sv) (hne : sv ≠ "") :
    proxyExecuteTool repo toolName input = .ok ⟨sv, toolName, input⟩ := by
  have hval : validateInput schema input = .ok () := by
    rcases schema with _ | _ | b | n | s | l | kvs
    · exact absurd rfl hn
    · exact absurd rfl hu
    all_goals simp [validateInput, hp, jsTruthy]
  have hpos : 0 < sv.length := stringLength_pos sv hne
  simp [proxyExecuteTool, hlk, his, hval, hsv, hpos]

/-- C10 witness: a tool whose schema is `{type:"object"}` (no `properties`)
dispatches the number `7` unchanged. -/
theorem c10_no_properties_no_validation_witness :
    proxyExecuteTool
        [("t", Json.obj (.cons "inputSchema" (Json.obj (.cons "type" (.str "object") .nil))
          (.cons "serverName" (.str "srv") .nil)))]
        "t" (Json.num 7) = .ok ⟨"srv", "t", Json.num 7⟩ :=
  c10_no_properties_no_validation _ "t" _ (Json.obj (.cons "type" (.str "object") .nil))
    (Json.num 7) "srv" rfl rfl (by decide) (by decide) rfl rfl (by decide)

/-! ## Tool gate controller (`src/gating/toolset-registry.ts`)

State of a `ToolGateController`: JS `Map`s/objects become association lists in
insertion order, `Set`s become duplicate-free lists in insertion order.  Loader
functions are modelled by their (deterministic) results, a map from toolset id
to the descriptor map the loader produces; `Date.now()` is an explicit `now`
argument.  The reverse-index fields (`toolNameToToolsetIndex`,
`manifestsLoaded`, `inflightEnable`) and the filter list are omitted: none of
the modelled operations reads them. -/

structure GateState where
  toolsetLoaders : List (String × List (String × JsonFields))
  activeToolsets : List String
  loadedTools : List (String × JsonFields)
  toolsetTools : List (String × List String)
  toolNameToActiveToolset : List (String × String)
  toolsetLastUsed : List (String × Int)
  pinned : List String
  ttlMs : Int
  maxActiveToolsets : Nat
deriving DecidableEq

namespace GateState

/-- `Map.get` / object indexing. -/
def alGet {β : Type} : List (String × β) → String → Option β
  | [], _ => none
  | (k, v) :: rest, k' => if k = k' then some v else alGet rest k'

/-- `Map.set` / object assignment: update the existing entry in place, else
append. -/
def alSet {β : Type} : List (String × β) → String → β → List (String × β)
  | [], k, v => [(k, v)]
  | (k₀, v₀) :: rest, k, v =>
    if k₀ = k then (k₀, v) :: rest else (k₀, v₀) :: alSet rest k v

/-- `Map.delete` / `delete o[k]`. -/
def alRemove {β : Type} (m : List (String × β)) (k : String) : List (String × β) :=
  m.filter (fun e => e.1 ≠ k)

/-- `Set.add`. -/
def setAdd (s : List String) (x : String) : List String :=
  if s.contains x then s else s ++ [x]

/-- `ToolGateController.disableToolset`. -/
def disableToolset (st : GateState) (name : String) : GateState :=
  if st.activeToolsets.contains name then
    let tools := (alGet st.toolsetTools name).getD []
    { st with
      loadedTools := tools.foldl alRemove st.loadedTools
      toolNameToActiveToolset := tools.foldl alRemove st.toolNameToActiveToolset
      toolsetTools := alRemove st.toolsetTools name
      activeToolsets := st.activeToolsets.filter (· ≠ name)
      toolsetLastUsed := alRemove st.toolsetLastUsed name }
  else st

/-- Stable insertion of `x` into a list sorted ascending by `key` —
`Array.prototype.sort` with comparator `(a, b) => key(a) - key(b)` is stable,
so an element inserted from the left of equal keys stays to their left. -/
def insertByKey (key : String → Int) (x : String) : List String → List String
  | [] => [x]
  | y :: ys => if key x ≤ key y then x :: y :: ys else y :: insertByKey key x ys

/-- `candidates.sort((a, b) => (lastUsed.get(a) ?? 0) - (lastUsed.get(b) ?? 0))`. -/
def sortByLastUsed (st : GateState) : List String → List String
  | [] => []
  | x :: xs => insertByKey (fun s => (alGet st.toolsetLastUsed s).getD 0) x (sortByLastUsed st xs)

/-- `ToolGateController.enforceLRUCap`: snapshot the unpinned active toolsets
sorted oldest-first, then disable the first `activeCount - maxActiveToolsets`
of them (`0 = unlimited` since `!this.maxActiveToolsets` is then true). -/
def enforceLRUCap (st : GateState) : List String × GateState :=
  if st.maxActiveToolsets = 0 ∨ st.activeToolsets.length ≤ st.maxActiveToolsets then
    ([], st)
  else
    let candidates :=
      sortByLastUsed st (st.activeToolsets.filter (fun s => !st.pinned.contains s))
    let excessCount := st.activeToolsets.length - st.maxActiveToolsets
    let victims := candidates.take excessCount
    (victims, victims.foldl disableToolset st)

/-- `ToolGateController.enableToolset`: `UnknownToolset` without a loader,
no-op when already active; otherwise optimize every descriptor, record
`toolsetTools`, remap the per-tool owner, `Object.assign` into the active map,
mark used and enforce the LRU cap.  There is no collision check. -/
def enableToolset (st : GateState) (name : String) (now : Int) :
    Except String GateState :=
  match alGet st.toolsetLoaders name with
  | none => .error ("Unknown toolset: " ++ name)
  | some tools =>
    if st.activeToolsets.contains name then .ok st
    else
      let optimized := tools.map (fun nt => (nt.1, optimizeTool nt.2))
      let st1 := { st with
        toolsetTools := alSet st.toolsetTools name (optimized.map Prod.fst)
        toolNameToActiveToolset :=
          optimized.foldl (fun m (nt : String × JsonFields) => alSet m nt.1 name)
            st.toolNameToActiveToolset
        loadedTools :=
          optimized.foldl (fun m (nt : String × JsonFields) => alSet m nt.1 nt.2)
            st.loadedTools }
      let st2 := { st1 with
        activeToolsets := setAdd st1.activeToolsets name
        toolsetLastUsed := alSet st1.toolsetLastUsed name now }
      .ok (st2.enforceLRUCap).2

/-- The `for (const [setName, lastUsed] of this.toolsetLastUsed)` loop of
`sweepExpiredToolsets` over a snapshot of the entries (the only deletion during
iteration is of the entry being visited, which a JS `Map` iterator permits). -/
def sweepGo (now : Int) : List (String × Int) → GateState → List String × GateState
  | [], st => ([], st)
  | (setName, lastUsed) :: rest, st =>
    if st.activeToolsets.contains setName then
      if st.pinned.contains setName then sweepGo now rest st
      else if st.ttlMs < now - lastUsed then
        let st' := st.disableToolset setName
        let r := sweepGo now rest st'
        (setName :: r.1, r.2)
      else sweepGo now rest st
    else sweepGo now rest st

/-- `ToolGateController.sweepExpiredToolsets`. -/
def sweepExpiredToolsets (st : GateState) (now : Int) : List String × GateState :=
  sweepGo now st.toolsetLastUsed st

/-- The active toolsets that list `toolName` among the tools they provided —
the "owners" of a tool name in the ownership-uniqueness invariant. -/
def ownersOf (st : GateState) (toolName : String) : List String :=
  st.activeToolsets.filter (fun s => ((alGet st.toolsetTools s).getD []).contains toolName)

end GateState

namespace GateState

theorem alGet_alSet_self {β : Type} : ∀ (m : List (String × β)) (k : String) (v : β),
    alGet (alSet m k v) k = some v
  | [], k, v => by simp [alSet, alGet]
  | (k₀, v₀) :: rest, k, v => by
    by_cases h : k₀ = k <;> simp [alSet, alGet, h, alGet_alSet_self rest k v]

theorem alGet_alSet_other {β : Type} : ∀ (m : List (String × β)) (k k' : String) (v : β),
    k ≠ k' → alGet (alSet m k v) k' = alGet m k'
  | [], k, k', v, h => by simp [alSet, alGet, h]
  | (k₀, v₀) :: rest, k, k', v, h => by
    by_cases h0 : k₀ = k
    · subst h0
      simp [alSet, alGet, h]
    · simp [alSet, alGet, h0, alGet_alSet_other rest k k' v h]

theorem disableToolset_pinned (st : GateState) (name : String) :
    (st.disableToolset name).pinned = st.pinned := by
  unfold disableToolset
  split <;> rfl

theorem mem_disableToolset_active (st : GateState) (name a : String) :
    a ∈ (st.disableToolset name).activeToolsets ↔ a ∈ st.activeToolsets ∧ a ≠ name := by
  unfold disableToolset
  by_cases h : name ∈ st.activeToolsets
  · simp [h, List.mem_filter]
  · have hb : st.activeToolsets.contains name = false := by simpa using h
    rw [hb]
    simp only [Bool.false_eq_true, if_false]
    constructor
    · intro ha
      exact ⟨ha, fun hh => h (hh ▸ ha)⟩
    · exact And.left

theorem sweepGo_pinned (now : Int) : ∀ (entries : List (String × Int)) (st : GateState),
    (sweepGo now entries st).2.pinned = st.pinned
  | [], st => rfl
  | (n, lu) :: rest, st => by
    unfold sweepGo
    by_cases h1 : n ∈ st.activeToolsets <;>
      by_cases h2 : n ∈ st.pinned <;>
      by_cases h3 : st.ttlMs < now - lu <;>
      simp [h1, h2, h3, sweepGo_pinned now rest, disableToolset_pinned]

theorem sweepGo_pin_safety (now : Int) (s : String) :
    ∀ (entries : List (String × Int)) (st : GateState),
      s ∈ st.pinned →
      s ∉ (sweepGo now entries st).1 ∧
        (s ∈ st.activeToolsets → s ∈ (sweepGo now entries st).2.activeToolsets)
  | [], st, hp => by simp [sweepGo]
  | (n, lu) :: rest, st, hp => by
    unfold sweepGo
    by_cases h1 : n ∈ st.activeToolsets
    · by_cases h2 : n ∈ st.pinned
      · simpa [h1, h2] using sweepGo_pin_safety now s rest st hp
      · by_cases h3 : st.ttlMs < now - lu
        · have hsn : s ≠ n := by
            rintro rfl
            exact h2 hp
          have hp' : s ∈ (st.disableToolset n).pinned := by
            rw [disableToolset_pinned]; exact hp
          have ih := sweepGo_pin_safety now s rest (st.disableToolset n) hp'
          refine ⟨?_, fun hact => ?_⟩
          · simp only [h1, h2, h3, if_true, if_pos, if_neg, not_false_iff, List.mem_cons]
            simp [h1, h2, h3]
            exact ⟨hsn, ih.1⟩
          · simp [h1, h2, h3]
            exact ih.2 ((mem_disableToolset_active st n s).mpr ⟨hact, hsn⟩)
        · simpa [h1, h2, h3] using sweepGo_pin_safety now s rest st hp
    · simpa [h1] using sweepGo_pin_safety now s rest st hp

theorem mem_insertByKey (key : String → Int) (x a : String) :
    ∀ l : List String, a ∈ insertByKey key x l ↔ a = x ∨ a ∈ l
  | [] => by simp [insertByKey]
  | y :: ys => by
    by_cases h : key x ≤ key y
    · simp [insertByKey, h]
    · simp [insertByKey, h, mem_insertByKey key x a ys]
      tauto

theorem mem_sortByLastUsed (st : GateState) (a : String) :
    ∀ l : List String, a ∈ sortByLastUsed st l ↔ a ∈ l
  | [] => by simp [sortByLastUsed]
  | x :: xs => by
    simp [sortByLastUsed, mem_insertByKey, mem_sortByLastUsed st a xs]

theorem foldl_disableToolset_active (s : String) :
    ∀ (victims : List String) (st : GateState), s ∉ victims → s ∈ st.activeToolsets →
      s ∈ (victims.foldl disableToolset st).activeToolsets
  | [], st, _, ha => ha
  | v :: rest, st, hnv, ha => by
    have hsv : s ≠ v := fun h => hnv (h ▸ List.mem_cons_self v rest)
    exact foldl_disableToolset_active s rest (st.disableToolset v)
      (fun h => hnv (List.mem_cons_of_mem v h))
      ((mem_disableToolset_active st v s).mpr ⟨ha, hsv⟩)

theorem enforceLRUCap_pin_safety (st : GateState) (s : String)
    (hp : s ∈ st.pinned) :
    s ∉ (st.enforceLRUCap).1 ∧
      (s ∈ st.activeToolsets → s ∈ (st.enforceLRUCap).2.activeToolsets) := by
  unfold enforceLRUCap
  by_cases h : st.maxActiveToolsets = 0 ∨ st.activeToolsets.length ≤ st.maxActiveToolsets
  · simp [h]
  · have hs : s ∉ (sortByLastUsed st
        (st.activeToolsets.filter (fun x => !st.pinned.contains x))).take
          (st.activeToolsets.length - st.maxActiveToolsets) := by
      intro hmem
      have hmem2 := List.mem_of_mem_take hmem
      rw [mem_sortByLastUsed] at hmem2
      have hfb := List.of_mem_filter hmem2
      simp at hfb
      exact hfb hp
    refine ⟨by simpa [h] using hs, fun hact => ?_⟩
    simpa [h] using foldl_disableToolset_active s _ st hs hact

end GateState

/-- C7.  A pinned toolset is never auto-disabled: `sweepExpiredToolsets` skips
pinned toolsets regardless of `lastUsed` and the TTL, `enforceLRUCap` excludes
pinned toolsets from its victim candidates regardless of how many toolsets are
active, the pinned toolset appears in neither returned disabled-list, and it
stays active in the resulting state. -/
theorem c7_pin_safety (st : GateState) (now : Int) (s : String)
    (hp : s ∈ st.pinned) :
    s ∉ (st.sweepExpiredToolsets now).1 ∧
    (s ∈ st.activeToolsets → s ∈ (st.sweepExpiredToolsets now).2.activeToolsets) ∧
    s ∉ (st.enforceLRUCap).1 ∧
    (s ∈ st.activeToolsets → s ∈ (st.enforceLRUCap).2.activeToolsets) := by
  have h1 := GateState.sweepGo_pin_safety now s st.toolsetLastUsed st hp
  have h2 := GateState.enforceLRUCap_pin_safety st s hp
  exact ⟨h1.1, h1.2, h2.1, h2.2⟩

/-- A concrete controller state: two active toolsets, `A` pinned and long
expired, a cap of one active toolset. -/
def c7state : GateState :=
  { toolsetLoaders := []
    activeToolsets := ["A", "B"]
    loadedTools := [("x", .nil), ("y", .nil)]
    toolsetTools := [("A", ["x"]), ("B", ["y"])]
    toolNameToActiveToolset := [("x", "A"), ("y", "B")]
    toolsetLastUsed := [("A", 0), ("B", 50)]
    pinned := ["A"]
    ttlMs := 1
    maxActiveToolsets := 1 }

/-- C7 witness: in `c7state` at time 100 the pinned, expired toolset `A` is
neither swept nor LRU-evicted and stays active. -/
theorem c7_pin_safety_witness :
    "A" ∉ (c7state.sweepExpiredToolsets 100).1 ∧
    ("A" ∈ c7state.activeToolsets →
      "A" ∈ (c7state.sweepExpiredToolsets 100).2.activeToolsets) ∧
    "A" ∉ (c7state.enforceLRUCap).1 ∧
    ("A" ∈ c7state.activeToolsets → "A" ∈ (c7state.enforceLRUCap).2.activeToolsets) :=
  c7_pin_safety c7state 100 "A" (by decide)

theorem alGet_foldl_alSet_const (name : String) :
    ∀ (pts : List (String × JsonFields)) (m : List (String × String)) (n : String),
      (n ∈ pts.map Prod.fst ∨ GateState.alGet m n = some name) →
      GateState.alGet
        (pts.foldl (fun m (nt : String × JsonFields) => GateState.alSet m nt.1 name) m) n =
        some name
  | [], m, n, h => by
    rcases h with h | h
    · simp at h
    · simpa using h
  | p :: rest, m, n, h => by
    apply alGet_foldl_alSet_const name rest (GateState.alSet m p.1 name) n
    by_cases hn : n = p.1
    · rw [hn]
      exact Or.inr (GateState.alGet_alSet_self m p.1 name)
    · rcases h with h | h
      · rcases List.mem_map.mp h with ⟨q, hq, hq2⟩
        rcases List.mem_cons.mp hq with rfl | hq3
        · exact absurd hq2.symm hn
        · exact Or.inl (List.mem_map.mpr ⟨q, hq3, hq2⟩)
      · exact Or.inr ((GateState.alGet_alSet_other m p.1 n name (fun hh => hn hh.symm)).trans h)

/-- C1 (amended).  `enableToolset` fails with `UnknownToolset` only when no
loader is registered and is a no-op when the toolset is already active; it
performs **no collision check**: with a registered loader, the toolset not yet
active and no LRU cap configured, enabling always succeeds — descriptors whose
names are already owned by another active toolset are inserted anyway,
overwriting the previous entry in the active tool map and remapping the
current-owner entry to the newly enabled toolset, while both toolsets stay
active and keep the shared name in their `toolsetTools` lists.  Tool-name
ownership by at most one active toolset is therefore not enforced. -/
theorem c1_enable_has_no_collision_check (st : GateState) (name : String)
    (tools : List (String × JsonFields)) (now : Int)
    (hld : GateState.alGet st.toolsetLoaders name = some tools)
    (hact : name ∉ st.activeToolsets)
    (hcap : st.maxActiveToolsets = 0) :
    ∃ st', st.enableToolset name now = .ok st' ∧
      st'.activeToolsets = st.activeToolsets ++ [name] ∧
      GateState.alGet st'.toolsetTools name = some (tools.map Prod.fst) ∧
      (∀ n, n ∈ tools.map Prod.fst →
        GateState.alGet st'.toolNameToActiveToolset n = some name) := by
  have hb : st.activeToolsets.contains name = false := by simpa using hact
  have hlru : ∀ s2 : GateState, s2.maxActiveToolsets = 0 → s2.enforceLRUCap = ([], s2) := by
    intro s2 h2
    simp [GateState.enforceLRUCap, h2]
  unfold GateState.enableToolset
  rw [hld, hb]
  simp only [Bool.false_eq_true, if_false]
  rw [hlru _ (by simpa using hcap)]
  refine ⟨_, rfl, ?_, ?_, ?_⟩
  · simp [GateState.setAdd, hb, hact]
  · simpa using GateState.alGet_alSet_self st.toolsetTools name _
  · intro n hn
    apply alGet_foldl_alSet_const name _ st.toolNameToActiveToolset n
    exact Or.inl (by simpa using hn)

/-- One shared tool name provided by two different toolsets. -/
def c1state : GateState :=
  { toolsetLoaders :=
      [("setA", [("x", .cons "name" (.str "x") .nil)]),
       ("setB", [("x", .cons "name" (.str "x") .nil)])]
    activeToolsets := []
    loadedTools := []
    toolsetTools := []
    toolNameToActiveToolset := []
    toolsetLastUsed := []
    pinned := []
    ttlMs := 300000
    maxActiveToolsets := 0 }

/-- C1 witness: enabling `setA` on `c1state` succeeds with the promised
bookkeeping. -/
theorem c1_enable_has_no_collision_check_witness :
    ∃ st', c1state.enableToolset "setA" 0 = .ok st' ∧
      st'.activeToolsets = c1state.activeToolsets ++ ["setA"] ∧
      GateState.alGet st'.toolsetTools "setA" =
        some ([("x", JsonFields.cons "name" (.str "x") .nil)].map Prod.fst) ∧
      (∀ n, n ∈ [("x", JsonFields.cons "name" (.str "x") .nil)].map Prod.fst →
        GateState.alGet st'.toolNameToActiveToolset n = some "setA") :=
  c1_enable_has_no_collision_check c1state "setA"
    [("x", JsonFields.cons "name" (.str "x") .nil)] 0 (by decide) (by decide) rfl

/-- C1 counterexample.  Both `setA` and `setB` provide a tool named `x`.
Enabling `setA` and then `setB` both succeed — no `Collision` error is ever
raised — and afterwards *two* active toolsets own the name `x`,
contradicting the claimed ownership uniqueness. -/
theorem c1_double_ownership :
    (match c1state.enableToolset "setA" 0 with
      | .ok st1 =>
        (match st1.enableToolset "setB" 1 with
          | .ok st2 => GateState.ownersOf st2 "x"
          | .error _ => [])
      | .error _ => []) = ["setA", "setB"] := by
  decide
